import Mathlib

/-! Shallow embedding of the PrimeStay property-listing application
(`app.py`): relational rows, route handlers, the image-ingestion helper and
the bootstrap routine, together with theorems checking the specification's
claims against these definitions.  External collaborators (password hashing,
filename sanitization) are passed in as function parameters; the SQLite
store is a record of row lists plus the upload directory tree. -/

namespace PrimeStay


/-- `User` row (`app.py` 29-37).  `password_hash` holds the opaque output of
the external hashing primitive; `active` defaults to `true` at the column
level. -/
structure User where
  id : Nat
  email : String
  name : String
  password_hash : String
  active : Bool
deriving DecidableEq

/-- `Property` row (`app.py` 39-52).  `created_at` is an abstract timestamp;
`baths` is a `FloatField` value, modelled as a rational. -/
structure Property where
  id : Nat
  title : String
  address : String
  city : String
  state : String
  price : Int
  for_rent : Bool
  beds : Int
  baths : Rat
  sqft : Int
  description : String
  created_at : Nat
deriving DecidableEq

/-- `Image` row (`app.py` 54-57): `filename` is the property-scoped relative
path recorded by `save_images`. -/
structure Image where
  id : Nat
  property_id : Nat
  filename : String
deriving DecidableEq

/-- `Application` row (`app.py` 59-67). -/
structure Application where
  id : Nat
  property_id : Nat
  full_name : String
  email : String
  phone : String
  move_in : String
  message : String
  created_at : Nat
deriving DecidableEq

/-- The persistent state: the four row tables the claims touch, plus the
upload tree `fs` (pairs `(property_id, filename)`: the file `filename`
exists in the directory scoped by `property_id`). -/
structure Store where
  users : List User
  props : List Property
  images : List Image
  applications : List Application
  fs : List (Nat × String)
deriving DecidableEq

/-- SQLite rowid allocation for an `INTEGER PRIMARY KEY`: one more than the
largest id in the table. -/
def nextId (ids : List Nat) : Nat := ids.foldr max 0 + 1

/-- Python `str.lower()`: character-wise case folding. -/
def pyLower (s : String) : String := ⟨s.data.map Char.toLower⟩

/-- Python `str.strip()`: drop leading and trailing whitespace. -/
def pyStrip (s : String) : String :=
  ⟨((s.data.dropWhile Char.isWhitespace).reverse.dropWhile
      Char.isWhitespace).reverse⟩

/-- `seed_admin` (`app.py` 103-110): if the `User` table is empty, insert one
admin account built from the configured email and password.  The stored
email is used exactly as configured (not normalized). -/
def seed_admin (adminEmail adminPassword : String) (hash : String → String)
    (s : Store) : Store :=
  if s.users.length = 0 then
    { s with users := s.users ++
        [{ id := nextId (s.users.map (fun u => u.id)), email := adminEmail,
           name := "Admin", password_hash := hash adminPassword,
           active := true }] }
  else s

/-- The seed listing inserted by the bootstrap block (`app.py` 306-308). -/
def sampleProperty (pid now : Nat) : Property :=
  { id := pid, title := "Modern Downtown Loft",
    address := "123 Market St, Unit 504", city := "Los Angeles",
    state := "CA", price := 2950, for_rent := true, beds := 1, baths := 1,
    sqft := 740,
    description := "Sunny loft with floor-to-ceiling windows, polished concrete floors, and in-unit laundry.",
    created_at := now }

/-- The bootstrap block (`app.py` 302-309): `db.create_all()` (schema only,
no row effect), `seed_admin()`, then insert the sample `Property` if the
`Property` table is empty. -/
def bootstrap (adminEmail adminPassword : String) (hash : String → String)
    (now : Nat) (s : Store) : Store :=
  let s1 := seed_admin adminEmail adminPassword hash s
  if s1.props.length = 0 then
    { s1 with props := s1.props ++
        [sampleProperty (nextId (s1.props.map (fun p => p.id))) now] }
  else s1

/-- Errors surfaced by route handlers: `get_or_404` raises `NotFound`. -/
inductive RouteError where
  | notFound
deriving DecidableEq

/-- `admin_delete` (`app.py` 292-299), behind `login_required`: load the
`Property` by id (`NotFound` if absent), then delete it; the
`cascade="all,delete"` relationship (`app.py` 52) removes every `Image` row
whose `property_id` is the deleted id.  `Application` rows have no such
relationship and are untouched; files on disk are not removed. -/
def admin_delete (s : Store) (prop_id : Nat) : Except RouteError Store :=
  match s.props.find? (fun p => p.id == prop_id) with
  | none => .error .notFound
  | some _ =>
      .ok { s with
        props := s.props.filter (fun p => p.id != prop_id),
        images := s.images.filter (fun i => i.property_id != prop_id) }

/-- `property_detail` (`app.py` 174-177): `get_or_404` by id. -/
def property_detail (s : Store) (prop_id : Nat) : Except RouteError Property :=
  match s.props.find? (fun p => p.id == prop_id) with
  | none => .error .notFound
  | some p => .ok p

/-- Result of the `admin_login` handler (`app.py` 220-229): `success` means
`login_user` ran (a session bound to the user id was established) and the
request was redirected to the dashboard; `failure` means no session was
established and the given message was flashed. -/
inductive LoginResult where
  | success (sessionUserId : Nat)
  | failure (flashMessage : String)
deriving DecidableEq

/-- `admin_login` (`app.py` 220-229), after form validation: look up the
user by the lowercased submitted email (exact comparison against the stored
email), then require the password check and the `active` flag.  `chk` is the
external `check_password_hash` primitive. -/
def admin_login (chk : String → String → Bool) (users : List User)
    (email password : String) : LoginResult :=
  match users.find? (fun u => u.email == pyLower email) with
  | some user =>
      if chk user.password_hash password && user.active then
        .success user.id
      else .failure "Invalid credentials."
  | none => .failure "Invalid credentials."

/-- Result of a POST to `/apply/{id}` (`app.py` 179-196): `notFound` from
`get_or_404`; `invalid` re-renders the form with the flashed message and
writes nothing; `submitted` records the row and redirects to the detail
page. -/
inductive ApplyResult where
  | notFound
  | invalid (flashMessage : String)
  | submitted (redirectPropId : Nat)
deriving DecidableEq

/-- The POST branch of `apply` (`app.py` 179-196): strip each field, require
`full_name`, `email` and `phone` to be non-empty (Python truthiness of
`full_name and email and phone`), and only then append an `Application`
row. -/
def apply_route (s : Store) (now : Nat) (prop_id : Nat)
    (full_name email phone move_in message : String) :
    ApplyResult × Store :=
  match s.props.find? (fun p => p.id == prop_id) with
  | none => (.notFound, s)
  | some prop =>
      let fn := pyStrip full_name
      let em := pyStrip email
      let ph := pyStrip phone
      let mi := pyStrip move_in
      let ms := pyStrip message
      if fn = "" ∨ em = "" ∨ ph = "" then
        (.invalid "Please complete all required fields.", s)
      else
        (.submitted prop.id,
          { s with applications := s.applications ++
              [{ id := nextId (s.applications.map (fun a => a.id)),
                 property_id := prop.id, full_name := fn, email := em,
                 phone := ph, move_in := mi, message := ms,
                 created_at := now }] })

/-- `ALLOWED_EXTENSIONS` (`app.py` 15). -/
def ALLOWED_EXTENSIONS : List String := ["png", "jpg", "jpeg", "webp", "gif"]

/-- Python `filename.rsplit(".", 1)[1]`: the part after the last dot. -/
def rsplitExt (filename : String) : String :=
  ⟨(filename.data.reverse.takeWhile (fun c => c != '.')).reverse⟩

/-- `allowed_file` (`app.py` 112-113): a dot is present and the lowercased
final extension is in the allow-list. -/
def allowed_file (filename : String) : Bool :=
  filename.data.contains '.' &&
    ALLOWED_EXTENSIONS.contains (pyLower (rsplitExt filename))

/-- An uploaded file; only its client-supplied filename matters to the
claims (`f.save` is a filesystem effect captured in `Store.fs`). -/
structure UploadFile where
  filename : String
deriving DecidableEq

/-- The contents of the upload directory scoped by `property_id`. -/
def dirListing (s : Store) (pid : Nat) : List String :=
  s.fs.filterMap (fun e => if e.1 = pid then some e.2 else none)

/-- Python `os.path.splitext`: split before the last dot, except that a
name whose characters before that dot are all dots has no extension. -/
def splitext (name : String) : String × String :=
  let cs := name.data
  match cs.reverse.findIdx? (fun c => c == '.') with
  | none => (name, "")
  | some j =>
      let i := cs.length - 1 - j
      if (cs.take i).any (fun c => c != '.') then (⟨cs.take i⟩, ⟨cs.drop i⟩)
      else (name, "")

/-- The candidate `f"{base}_{counter}{ext}"` built by the collision loop
(`app.py` 128). -/
def suffixName (base ext : String) (k : Nat) : String :=
  base ++ "_" ++ Nat.repr k ++ ext

/-- The `while os.path.exists(...)` loop of `save_images` (`app.py`
126-129): while the candidate name exists in the directory, replace it by
`f"{base}_{counter}{ext}"` and increment the counter.  `fuel` bounds the
iteration count; `dir.length + 1` iterations always suffice (see
`uniqLoop_fresh`). -/
def uniqLoop (dir : List String) (base ext : String) :
    Nat → Nat → String → String
  | 0, _, filename => filename
  | fuel + 1, counter, filename =>
      if filename ∈ dir then
        uniqLoop dir base ext fuel (counter + 1) (suffixName base ext counter)
      else filename

/-- The unique-name search of `save_images` (`app.py` 124-129): split the
sanitized name, then run the collision loop starting from counter 1. -/
def uniquify (dir : List String) (filename : String) : String :=
  uniqLoop dir (splitext filename).1 (splitext filename).2
    (dir.length + 1) 1 filename

/-- One stored file: `f.save(...)` places `fn` in the directory of
`property_id`, and one `Image` row is recorded with the path
`os.path.join(str(property_id), fn)` (`app.py` 130-132). -/
def storeAfterSave (s : Store) (property_id : Nat) (fn : String) : Store :=
  { s with
    fs := s.fs ++ [(property_id, fn)],
    images := s.images ++
      [{ id := nextId (s.images.map (fun i => i.id)),
         property_id := property_id,
         filename := Nat.repr property_id ++ "/" ++ fn }] }

/-- `save_images` (`app.py` 115-135): skip empty filenames, silently skip
disallowed extensions, sanitize (`secure` is werkzeug's
`secure_filename`), make the name unique within the property directory,
save the file there and record its `Image` row.  Returns the stored names
and the updated store. -/
def save_images (secure : String → String) (files : List UploadFile)
    (property_id : Nat) (s : Store) : List String × Store :=
  match files with
  | [] => ([], s)
  | f :: rest =>
      if f.filename = "" then save_images secure rest property_id s
      else if allowed_file f.filename then
        let filename := uniquify (dirListing s property_id) (secure f.filename)
        let r := save_images secure rest property_id
          (storeAfterSave s property_id filename)
        (filename :: r.1, r.2)
      else save_images secure rest property_id s

/-- A validated `PropertyForm` submission (`app.py` 84-96): `beds`, `baths`,
`sqft` and `description` carry `Optional()` validators, so their data can be
`None`. -/
structure PropertyForm where
  title : String
  address : String
  city : String
  state : String
  price : Int
  mode : String
  beds : Option Int
  baths : Option Rat
  sqft : Option Int
  description : Option String
  image_files : List UploadFile
deriving DecidableEq

/-- Python `x or d` for an optional integer field: `None` and `0` are both
falsy. -/
def orDefaultInt (x : Option Int) (d : Int) : Int :=
  match x with
  | none => d
  | some v => if v = 0 then d else v

/-- Python `x or d` for an optional float field: `None` and `0.0` are both
falsy. -/
def orDefaultRat (x : Option Rat) (d : Rat) : Rat :=
  match x with
  | none => d
  | some v => if v = 0 then d else v

/-- Python `x or d` for an optional string field: `None` and `""` are both
falsy. -/
def orDefaultStr (x : Option String) (d : String) : String :=
  match x with
  | none => d
  | some v => if v = "" then d else v

/-- The `Property` record built by `admin_new` (`app.py` 248-259). -/
def propertyFromForm (form : PropertyForm) (pid now : Nat) : Property :=
  { id := pid
    title := pyStrip form.title
    address := pyStrip form.address
    city := pyStrip form.city
    state := pyStrip form.state
    price := form.price
    for_rent := form.mode == "rent"
    beds := orDefaultInt form.beds 1
    baths := orDefaultRat form.baths 1
    sqft := orDefaultInt form.sqft 500
    description := orDefaultStr form.description ""
    created_at := now }

/-- `admin_new` (`app.py` 243-265), behind `login_required`, on a validated
submission: insert the new `Property`, then ingest its images. -/
def admin_new (s : Store) (now : Nat) (form : PropertyForm)
    (secure : String → String) : Store :=
  let pid := nextId (s.props.map (fun p => p.id))
  let s2 := { s with props := s.props ++ [propertyFromForm form pid now] }
  (save_images secure form.image_files pid s2).2

/-- The in-place field overwrite performed by `admin_edit` (`app.py`
276-285): same stripping and defaults as create; `id` and `created_at` are
untouched. -/
def updateProperty (p : Property) (form : PropertyForm) : Property :=
  { p with
    title := pyStrip form.title
    address := pyStrip form.address
    city := pyStrip form.city
    state := pyStrip form.state
    price := form.price
    for_rent := form.mode == "rent"
    beds := orDefaultInt form.beds 1
    baths := orDefaultRat form.baths 1
    sqft := orDefaultInt form.sqft 500
    description := orDefaultStr form.description "" }

/-- `admin_edit` (`app.py` 267-290), behind `login_required`, on a validated
submission: `get_or_404`, overwrite the row in place, then ingest any newly
supplied images (appending to the existing ones). -/
def admin_edit (s : Store) (prop_id : Nat) (form : PropertyForm)
    (secure : String → String) : Except RouteError Store :=
  match s.props.find? (fun p => p.id == prop_id) with
  | none => .error .notFound
  | some _ =>
      let s2 := { s with props := s.props.map (fun p =>
          if p.id = prop_id then updateProperty p form else p) }
      .ok (save_images secure form.image_files prop_id s2).2

/-- Does `f` accept some suffix of the list?  Support for the `%` case of
SQL `LIKE`. -/
def likeSuffixes (f : List Char → Bool) : List Char → Bool
  | [] => f []
  | c :: s => f (c :: s) || likeSuffixes f s

/-- SQL `LIKE` pattern matching: `%` matches any sequence, `_` any single
character, and any other pattern character only itself. -/
def likeMatch : List Char → List Char → Bool
  | [], s => s.isEmpty
  | p :: ps, s =>
      if p = '%' then likeSuffixes (likeMatch ps) s
      else
        match s with
        | [] => false
        | c :: s2 => (p == '_' || p == c) && likeMatch ps s2

/-- SQLAlchemy `column.ilike(pattern)`: case-insensitive `LIKE` (both sides
folded to lowercase, as SQLite's `lower() LIKE lower()`). -/
def ilike (field pattern : String) : Bool :=
  likeMatch (pattern.data.map Char.toLower) (field.data.map Char.toLower)

/-- `Property.query.order_by(Property.created_at.desc())`: newest first. -/
def createdDesc (a b : Property) : Prop := b.created_at ≤ a.created_at

instance : DecidableRel createdDesc :=
  fun a b => Nat.decLe b.created_at a.created_at

/-- The ordered base query of the catalog views. -/
def orderByCreatedDesc (l : List Property) : List Property :=
  List.insertionSort createdDesc l

/-- `home` (`app.py` 138-154): strip `q` and `city`, apply the `q` filter
(title OR address OR city `ilike "%q%"`), the `city` filter, the `mode`
filter, then `limit(6)`. -/
def home (s : Store) (q city mode : String) : List Property :=
  let q2 := pyStrip q
  let city2 := pyStrip city
  let props := orderByCreatedDesc s.props
  let props :=
    if q2 ≠ "" then
      props.filter (fun p =>
        ilike p.title ("%" ++ q2 ++ "%") || ilike p.address ("%" ++ q2 ++ "%")
          || ilike p.city ("%" ++ q2 ++ "%"))
    else props
  let props :=
    if city2 ≠ "" then props.filter (fun p => ilike p.city ("%" ++ city2 ++ "%"))
    else props
  let props :=
    if mode = "rent" then props.filter (fun p => p.for_rent)
    else if mode = "sale" then props.filter (fun p => !p.for_rent)
    else props
  props.take 6

/-- `properties` (`app.py` 156-172): the same pipeline as `home` without the
`limit(6)`. -/
def properties (s : Store) (q city mode : String) : List Property :=
  let q2 := pyStrip q
  let city2 := pyStrip city
  let props := orderByCreatedDesc s.props
  let props :=
    if q2 ≠ "" then
      props.filter (fun p =>
        ilike p.title ("%" ++ q2 ++ "%") || ilike p.address ("%" ++ q2 ++ "%")
          || ilike p.city ("%" ++ q2 ++ "%"))
    else props
  let props :=
    if city2 ≠ "" then props.filter (fun p => ilike p.city ("%" ++ city2 ++ "%"))
    else props
  let props :=
    if mode = "rent" then props.filter (fun p => p.for_rent)
    else if mode = "sale" then props.filter (fun p => !p.for_rent)
    else props
  props

/-- Case-insensitive substring containment: the specification's reading of
`ilike("%q%")`. -/
def containsCI (hay needle : String) : Prop :=
  needle.data.map Char.toLower <:+: hay.data.map Char.toLower

instance (hay needle : String) : Decidable (containsCI hay needle) :=
  List.decidableInfix _ _

/-- A two-property store used to instantiate the delete theorems. -/
def storeC1 : Store :=
  { users := []
    props :=
      [{ id := 1, title := "Loft", address := "1 A St", city := "LA",
         state := "CA", price := 1000, for_rent := true, beds := 1,
         baths := 1, sqft := 500, description := "", created_at := 10 },
       { id := 2, title := "House", address := "2 B St", city := "SF",
         state := "CA", price := 2000, for_rent := false, beds := 2,
         baths := 2, sqft := 900, description := "", created_at := 20 }]
    images := [{ id := 1, property_id := 1, filename := "1/a.png" },
               { id := 2, property_id := 2, filename := "2/b.png" },
               { id := 3, property_id := 1, filename := "1/c.png" }]
    applications := [{ id := 1, property_id := 1, full_name := "Jo",
                       email := "jo@x.com", phone := "555", move_in := "",
                       message := "", created_at := 30 }]
    fs := [(1, "a.png"), (2, "b.png"), (1, "c.png")] }

/-- The store produced by deleting property 1 from `storeC1`. -/
def storeC1del : Store :=
  { storeC1 with
    props := storeC1.props.filter (fun p => p.id != 1),
    images := storeC1.images.filter (fun i => i.property_id != 1) }

/-- A password checker rejecting everything (a wrong password). -/
def chkNever : String → String → Bool := fun _ _ => false

/-- A password checker accepting everything (a correct password). -/
def chkAlways : String → String → Bool := fun _ _ => true

/-- An active stored admin user. -/
def userActive : User :=
  { id := 1, email := "admin@example.com", name := "Admin",
    password_hash := "h1", active := true }

/-- A deactivated stored user. -/
def userInactive : User :=
  { id := 2, email := "ops@example.com", name := "Admin",
    password_hash := "h2", active := false }

/-- A stored admin whose configured email contains uppercase letters
(`seed_admin` stores `ADMIN_EMAIL` verbatim). -/
def userMixedCase : User :=
  { id := 1, email := "Admin@example.com", name := "Admin",
    password_hash := "h", active := true }

/-- Decimal digit list of a natural number, most significant first: the
reference shape of `Nat.toDigitsCore` at base 10. -/
def decDigits (n : Nat) : List Char :=
  if h : n / 10 = 0 then [Nat.digitChar (n % 10)]
  else decDigits (n / 10) ++ [Nat.digitChar (n % 10)]
  termination_by n
  decreasing_by
    have hn : n ≠ 0 := fun h0 => h (by simp [h0])
    exact Nat.div_lt_self (Nat.pos_of_ne_zero hn) (by norm_num)

/-- Decimal value of a digit list, most significant first. -/
def listVal (cs : List Char) : Nat :=
  cs.foldl (fun a c => 10 * a + (c.toNat - 48)) 0

/-- A one-property store exercising the search views. -/
def storeC5 : Store :=
  { users := []
    props := [{ id := 1, title := "Sunny Loft", address := "9 C St",
                city := "Austin", state := "TX", price := 900,
                for_rent := true, beds := 1, baths := 1, sqft := 400,
                description := "", created_at := 7 }]
    images := [], applications := [], fs := [] }

/-- A validated form with falsy optional fields. -/
def formC9 : PropertyForm :=
  { title := " Loft ", address := "2 A St", city := "LA", state := "CA",
    price := 10, mode := "rent", beds := none, baths := some 0,
    sqft := some 0, description := none, image_files := [] }

/-- The row table written by editing property 1 of `storeC1` with
`formC9`. -/
def storeC9edit : Store :=
  { storeC1 with props := storeC1.props.map (fun p =>
      if p.id = 1 then updateProperty p formC9 else p) }

/-- After `seed_admin` the `User` table is never empty. -/
theorem seed_admin_users_pos (e pw : String) (hash : String → String)
    (s : Store) : 0 < (seed_admin e pw hash s).users.length := by
  unfold seed_admin
  split
  · simp
  · omega

/-- After `bootstrap` the `User` table is never empty. -/
theorem bootstrap_users_pos (e pw : String) (hash : String → String)
    (now : Nat) (s : Store) :
    0 < (bootstrap e pw hash now s).users.length := by
  simp only [bootstrap]
  split
  · exact seed_admin_users_pos e pw hash s
  · exact seed_admin_users_pos e pw hash s

/-- After `bootstrap` the `Property` table is never empty. -/
theorem bootstrap_props_pos (e pw : String) (hash : String → String)
    (now : Nat) (s : Store) :
    0 < (bootstrap e pw hash now s).props.length := by
  simp only [bootstrap]
  split
  · simp
  · omega

/-- C8: the bootstrap routine is idempotent: a second run (under any
configuration and at any later time) detects the existing `User` and
`Property` rows, skips re-seeding, and leaves the store unchanged. -/
theorem bootstrap_idempotent (e pw : String) (hash : String → String)
    (now : Nat) (e2 pw2 : String) (hash2 : String → String) (now2 : Nat)
    (s : Store) :
    bootstrap e2 pw2 hash2 now2 (bootstrap e pw hash now s) =
      bootstrap e pw hash now s := by
  have hu := bootstrap_users_pos e pw hash now s
  have hp := bootstrap_props_pos e pw hash now s
  set t := bootstrap e pw hash now s with ht
  have hseed : seed_admin e2 pw2 hash2 t = t := by
    unfold seed_admin
    rw [if_neg (by omega)]
  simp only [bootstrap]
  rw [hseed]
  rw [if_neg (by omega)]

/-- C1: deleting an existing `Property` removes the `Property` row and every
`Image` row whose `property_id` is that id (all other rows of those tables
are kept), and a subsequent detail lookup for the id returns `NotFound`;
deleting an id that does not exist itself fails with `NotFound`. -/
theorem admin_delete_cascades (s : Store) (pid : Nat) :
    ((∀ p ∈ s.props, p.id ≠ pid) →
      admin_delete s pid = .error .notFound)
    ∧ ((∃ p ∈ s.props, p.id = pid) → ∃ s2, admin_delete s pid = .ok s2)
    ∧ (∀ s2, admin_delete s pid = .ok s2 →
        s2.props = s.props.filter (fun p => p.id != pid)
        ∧ s2.images = s.images.filter (fun i => i.property_id != pid)
        ∧ property_detail s2 pid = .error .notFound) := by
  refine ⟨fun hall => ?_, fun hex => ?_, fun s2 h2 => ?_⟩
  · unfold admin_delete
    have hf : s.props.find? (fun p => p.id == pid) = none := by
      rw [List.find?_eq_none]
      intro x hx
      simpa using hall x hx
    rw [hf]
  · obtain ⟨p, hp, rfl⟩ := hex
    unfold admin_delete
    cases hf : s.props.find? (fun q => q.id == p.id) with
    | none =>
        rw [List.find?_eq_none] at hf
        exact absurd (by simp : (p.id == p.id) = true) (hf p hp)
    | some q => exact ⟨_, rfl⟩
  · unfold admin_delete at h2
    cases hf : s.props.find? (fun p => p.id == pid) with
    | none => rw [hf] at h2; cases h2
    | some q =>
        rw [hf] at h2
        injection h2 with h2
        subst h2
        refine ⟨rfl, rfl, ?_⟩
        unfold property_detail
        have hnone : (s.props.filter (fun p => p.id != pid)).find?
            (fun p => p.id == pid) = none := by
          rw [List.find?_eq_none]
          intro x hx
          have hne := (List.mem_filter.mp hx).2
          simp only [bne_iff_ne, ne_eq] at hne
          simp [hne]
        simp only
        rw [hnone]

/-- Witness for C1 at a concrete store. -/
theorem admin_delete_cascades_witness :
    (storeC1del.props = storeC1.props.filter (fun p => p.id != 1)
      ∧ storeC1del.images = storeC1.images.filter (fun i => i.property_id != 1)
      ∧ property_detail storeC1del 1 = .error .notFound)
    ∧ admin_delete storeC1 3 = .error .notFound
    ∧ (∃ s2, admin_delete storeC1 1 = .ok s2) :=
  ⟨(admin_delete_cascades storeC1 1).2.2 storeC1del rfl,
   (admin_delete_cascades storeC1 3).1 (by decide),
   (admin_delete_cascades storeC1 1).2.1 (by decide)⟩

/-- C10: deleting a `Property` leaves the `Application` table untouched:
the row list (hence every row and all its fields) is unchanged. -/
theorem admin_delete_keeps_applications (s : Store) (pid : Nat) (s2 : Store)
    (h : admin_delete s pid = .ok s2) : s2.applications = s.applications := by
  unfold admin_delete at h
  cases hf : s.props.find? (fun p => p.id == pid) with
  | none => rw [hf] at h; cases h
  | some q => rw [hf] at h; injection h with h; subst h; rfl

/-- Witness for C10 at a concrete store with an application on the deleted
property. -/
theorem admin_delete_keeps_applications_witness :
    storeC1del.applications = storeC1.applications :=
  admin_delete_keeps_applications storeC1 1 storeC1del rfl

/-- C2: a failing login — unknown email, failed password check, or inactive
account — always yields `LoginResult.failure` (no session is established)
with the one user-visible message "Invalid credentials.", identical across
the three cases. -/
theorem login_failure_uniform (chk : String → String → Bool)
    (users : List User) (email password : String) :
    (users.find? (fun u => u.email == pyLower email) = none →
      admin_login chk users email password = .failure "Invalid credentials.")
    ∧ (∀ u, users.find? (fun v => v.email == pyLower email) = some u →
        chk u.password_hash password = false →
        admin_login chk users email password = .failure "Invalid credentials.")
    ∧ (∀ u, users.find? (fun v => v.email == pyLower email) = some u →
        u.active = false →
        admin_login chk users email password = .failure "Invalid credentials.") := by
  unfold admin_login
  refine ⟨fun h => by rw [h], fun u h hchk => ?_, fun u h hact => ?_⟩
  · rw [h]
    simp [hchk]
  · rw [h]
    simp [hact]

/-- Witness for C2: the three concrete failure cases produce the identical
message. -/
theorem login_failure_uniform_witness :
    admin_login chkNever [] "admin@example.com" "pw"
        = .failure "Invalid credentials."
    ∧ admin_login chkNever [userActive] "admin@example.com" "pw"
        = .failure "Invalid credentials."
    ∧ admin_login chkAlways [userInactive] "ops@example.com" "pw"
        = .failure "Invalid credentials." :=
  ⟨(login_failure_uniform chkNever [] "admin@example.com" "pw").1 (by decide),
   (login_failure_uniform chkNever [userActive] "admin@example.com" "pw").2.1
     userActive (by decide) (by decide),
   (login_failure_uniform chkAlways [userInactive] "ops@example.com" "pw").2.2
     userInactive (by decide) (by decide)⟩

/-- C3 counterexample: the stored email `"Admin@example.com"` is active and
the password check passes, the submission `"admin@example.com"` differs from
it only in letter case, yet login fails: the handler lowercases only the
submitted email and then compares it for exact equality with the stored
one. -/
theorem login_case_variant_counterexample :
    pyLower "admin@example.com" = pyLower userMixedCase.email
    ∧ userMixedCase.active = true
    ∧ chkAlways userMixedCase.password_hash "pw" = true
    ∧ admin_login chkAlways [userMixedCase] "admin@example.com" "pw"
        ≠ .success userMixedCase.id := by decide

/-- A member of a list with a unique key is the value `find?` returns for
that key. -/
theorem find?_of_mem_unique {l : List User} {u : User} {t : String}
    (hmem : u ∈ l) (ht : u.email = t)
    (huniq : ∀ v ∈ l, v.email = t → v = u) :
    l.find? (fun v => v.email == t) = some u := by
  induction l with
  | nil => cases hmem
  | cons a l ih =>
      by_cases ha : a.email = t
      · have hau : a = u := huniq a (List.mem_cons_self a l) ha
        rw [List.find?_cons_of_pos _ (by simpa using ha), hau]
      · rw [List.find?_cons_of_neg _ (by simpa using ha)]
        have hmem2 : u ∈ l := by
          rcases List.mem_cons.mp hmem with h | h
          · exact absurd (h ▸ ht) ha
          · exact h
        exact ih hmem2 (fun v hv he => huniq v (List.mem_cons_of_mem a hv) he)

/-- C3 (amended): the lookup lowercases the submitted email and compares it
for exact equality with the stored email, so a case-variant submission for a
stored active user with the correct password succeeds provided the stored
email is already in lowercase form. -/
theorem login_case_variant_succeeds (chk : String → String → Bool)
    (users : List User) (u : User) (email password : String)
    (hmem : u ∈ users)
    (huniq : ∀ v ∈ users, v.email = u.email → v = u)
    (hlower : pyLower u.email = u.email)
    (hcase : pyLower email = pyLower u.email)
    (hpw : chk u.password_hash password = true)
    (hact : u.active = true) :
    admin_login chk users email password = .success u.id := by
  have hfind : users.find? (fun v => v.email == pyLower email) = some u := by
    rw [hcase, hlower]
    exact find?_of_mem_unique hmem rfl huniq
  unfold admin_login
  rw [hfind]
  simp [hpw, hact]

/-- Witness for the amended C3: a case-variant submission against a stored
all-lowercase email succeeds. -/
theorem login_case_variant_succeeds_witness :
    admin_login chkAlways [userActive] "ADMIN@Example.COM" "pw"
      = .success userActive.id :=
  login_case_variant_succeeds chkAlways [userActive] userActive
    "ADMIN@Example.COM" "pw" (by decide) (by decide) (by decide) (by decide)
    (by decide) (by decide)

/-- C7: a POST to `/apply/{id}` for an existing `Property` in which
`full_name`, `email` or `phone` is empty after trimming flashes the
validation message and returns the store unchanged: no `Application` row is
written. -/
theorem apply_empty_field_rejected (s : Store) (now pid : Nat)
    (full_name email phone move_in message : String)
    (hex : ∃ p ∈ s.props, p.id = pid)
    (hempty : pyStrip full_name = "" ∨ pyStrip email = "" ∨ pyStrip phone = "") :
    apply_route s now pid full_name email phone move_in message =
      (.invalid "Please complete all required fields.", s) := by
  unfold apply_route
  cases hf : s.props.find? (fun p => p.id == pid) with
  | none =>
      rw [List.find?_eq_none] at hf
      obtain ⟨p, hp, rfl⟩ := hex
      exact absurd (by simp : (p.id == p.id) = true) (hf p hp)
  | some q =>
      simp only
      rw [if_pos hempty]

/-- Witness for C7: an application with a whitespace-only phone for the
existing property 1 is rejected and the store is unchanged. -/
theorem apply_empty_field_rejected_witness :
    apply_route storeC1 5 1 "Jo Smith" "jo@x.com" "  " "" "hello" =
      (.invalid "Please complete all required fields.", storeC1) :=
  apply_empty_field_rejected storeC1 5 1 "Jo Smith" "jo@x.com" "  " "" "hello"
    (by decide) (by decide)

theorem toDigitsCore_succ (fuel n : Nat) (ds : List Char) :
    Nat.toDigitsCore 10 (fuel + 1) n ds =
      if n / 10 = 0 then Nat.digitChar (n % 10) :: ds
      else Nat.toDigitsCore 10 fuel (n / 10) (Nat.digitChar (n % 10) :: ds) :=
  rfl

theorem toDigitsCore_eq_decDigits :
    ∀ (fuel n : Nat) (ds : List Char), n < fuel →
      Nat.toDigitsCore 10 fuel n ds = decDigits n ++ ds := by
  intro fuel
  induction fuel with
  | zero => omega
  | succ fuel ih =>
      intro n ds h
      by_cases h0 : n / 10 = 0
      · rw [toDigitsCore_succ, if_pos h0, decDigits, dif_pos h0]
        rfl
      · rw [toDigitsCore_succ, if_neg h0, ih (n / 10) _ (by omega)]
        conv_rhs => rw [decDigits]
        rw [dif_neg h0, List.append_assoc]
        rfl

theorem listVal_concat (l : List Char) (c : Char) :
    listVal (l ++ [c]) = 10 * listVal l + (c.toNat - 48) := by
  unfold listVal
  rw [List.foldl_append]
  rfl

theorem digitChar_val {k : Nat} (h : k < 10) :
    (Nat.digitChar k).toNat - 48 = k := by
  interval_cases k <;> decide

theorem listVal_decDigits (n : Nat) : listVal (decDigits n) = n := by
  induction n using Nat.strong_induction_on with
  | _ n ih =>
      by_cases h0 : n / 10 = 0
      · rw [decDigits, dif_pos h0]
        have h1 : n % 10 < 10 := Nat.mod_lt _ (by norm_num)
        have h2 : listVal [Nat.digitChar (n % 10)] = n % 10 := by
          unfold listVal
          simp [List.foldl, digitChar_val h1]
        rw [h2]
        omega
      · rw [decDigits, dif_neg h0, listVal_concat]
        have hlt : n / 10 < n := by
          have hn : n ≠ 0 := fun hz => h0 (by simp [hz])
          exact Nat.div_lt_self (Nat.pos_of_ne_zero hn) (by norm_num)
        rw [ih (n / 10) hlt, digitChar_val (Nat.mod_lt _ (by norm_num))]
        omega

theorem decDigits_inj {m n : Nat} (h : decDigits m = decDigits n) : m = n := by
  have h2 := congrArg listVal h
  rwa [listVal_decDigits, listVal_decDigits] at h2

theorem repr_data_eq_decDigits (n : Nat) : (Nat.repr n).data = decDigits n := by
  show (Nat.toDigits 10 n).asString.data = decDigits n
  unfold Nat.toDigits
  rw [toDigitsCore_eq_decDigits (n + 1) n [] (by omega)]
  simp [List.asString]

theorem nat_repr_data_inj {m n : Nat}
    (h : (Nat.repr m).data = (Nat.repr n).data) : m = n := by
  rw [repr_data_eq_decDigits, repr_data_eq_decDigits] at h
  exact decDigits_inj h

/-- The collision candidates `f"{base}_{k}{ext}"` are pairwise distinct. -/
theorem suffixName_inj (base ext : String) {j k : Nat}
    (h : suffixName base ext j = suffixName base ext k) : j = k := by
  unfold suffixName at h
  have hd := congrArg String.data h
  simp only [String.data_append] at hd
  have h1 := List.append_cancel_right hd
  have h2 := List.append_cancel_left h1
  exact nat_repr_data_inj h2

/-- If the initial name or one of the first `fuel` candidates is free, the
collision loop returns a name not present in the directory. -/
theorem uniqLoop_fresh (dir : List String) (base ext : String) :
    ∀ (fuel counter : Nat) (filename : String),
      (filename ∉ dir ∨
        ∃ i, i < fuel ∧ suffixName base ext (counter + i) ∉ dir) →
      uniqLoop dir base ext fuel counter filename ∉ dir := by
  intro fuel
  induction fuel with
  | zero =>
      intro counter filename h
      rcases h with h | ⟨i, hi, _⟩
      · exact h
      · omega
  | succ fuel ih =>
      intro counter filename h
      simp only [uniqLoop]
      by_cases hm : filename ∈ dir
      · rw [if_pos hm]
        apply ih (counter + 1) (suffixName base ext counter)
        rcases h with h | ⟨i, hi, hni⟩
        · exact absurd hm h
        · cases i with
          | zero => exact Or.inl (by simpa using hni)
          | succ i =>
              refine Or.inr ⟨i, by omega, ?_⟩
              have hc : counter + 1 + i = counter + (i + 1) := by omega
              rw [hc]
              exact hni
      · rw [if_neg hm]
        exact hm

/-- The collision loop returns the initial name or a suffixed candidate
with counter at least the starting value. -/
theorem uniqLoop_shape (dir : List String) (base ext : String) :
    ∀ (fuel counter : Nat) (filename : String),
      uniqLoop dir base ext fuel counter filename = filename ∨
        ∃ k, counter ≤ k ∧
          uniqLoop dir base ext fuel counter filename
            = suffixName base ext k := by
  intro fuel
  induction fuel with
  | zero =>
      intro counter filename
      exact Or.inl rfl
  | succ fuel ih =>
      intro counter filename
      simp only [uniqLoop]
      by_cases hm : filename ∈ dir
      · rw [if_pos hm]
        rcases ih (counter + 1) (suffixName base ext counter) with h | ⟨k, hk, h⟩
        · exact Or.inr ⟨counter, le_refl _, h⟩
        · exact Or.inr ⟨k, by omega, h⟩
      · rw [if_neg hm]
        exact Or.inl rfl

/-- Pigeonhole: among `dir.length + 1` distinct candidates some candidate is
not in `dir`. -/
theorem exists_fresh_suffix (dir : List String) (base ext : String) :
    ∃ i, i < dir.length + 1 ∧ suffixName base ext (1 + i) ∉ dir := by
  by_contra hc
  push_neg at hc
  set L := (List.range (dir.length + 1)).map
    (fun i => suffixName base ext (1 + i)) with hL
  have hinj : Function.Injective (fun i => suffixName base ext (1 + i)) := by
    intro a b hab
    have hj := suffixName_inj base ext hab
    omega
  have hnd : L.Nodup := List.Nodup.map hinj (List.nodup_range _)
  have hsub : ∀ x ∈ L, x ∈ dir := by
    intro x hx
    obtain ⟨i, hi, rfl⟩ := List.mem_map.mp hx
    exact hc i (List.mem_range.mp hi)
  have hlen : L.length = dir.length + 1 := by simp [hL]
  have hcard : L.toFinset.card ≤ dir.toFinset.card :=
    Finset.card_le_card
      (fun x hx => List.mem_toFinset.mpr (hsub x (List.mem_toFinset.mp hx)))
  rw [List.toFinset_card_of_nodup hnd, hlen] at hcard
  have hd2 := List.toFinset_card_le (l := dir)
  omega

/-- The name chosen by `save_images` is always free in the directory. -/
theorem uniquify_fresh (dir : List String) (filename : String) :
    uniquify dir filename ∉ dir := by
  obtain ⟨i, hi, hni⟩ :=
    exists_fresh_suffix dir (splitext filename).1 (splitext filename).2
  exact uniqLoop_fresh dir _ _ _ 1 filename (Or.inr ⟨i, hi, hni⟩)

/-- The name chosen by `save_images` is the sanitized name itself or a
numerically suffixed variant `base_k.ext` with `k ≥ 1`. -/
theorem uniquify_shape (dir : List String) (filename : String) :
    uniquify dir filename = filename ∨
      ∃ k, 1 ≤ k ∧ uniquify dir filename
        = suffixName (splitext filename).1 (splitext filename).2 k := by
  rcases uniqLoop_shape dir (splitext filename).1 (splitext filename).2
      (dir.length + 1) 1 filename with h | ⟨k, hk, h⟩
  · exact Or.inl h
  · exact Or.inr ⟨k, hk, h⟩

/-- C4: the home view returns exactly the first six elements of the full
listing view under the same `q`, `city` and `mode` parameters (the two
pipelines are identical up to `limit(6)`), so its result count is at most
six. -/
theorem home_eq_take_properties (s : Store) (q city mode : String) :
    home s q city mode = (properties s q city mode).take 6
    ∧ (home s q city mode).length ≤ 6 := by
  refine ⟨rfl, ?_⟩
  have h : home s q city mode = (properties s q city mode).take 6 := rfl
  rw [h]
  simp only [List.length_take]
  omega

/-- `likeSuffixes f` accepts a list exactly when `f` accepts one of its
suffixes. -/
theorem likeSuffixes_iff (f : List Char → Bool) (s : List Char) :
    likeSuffixes f s = true ↔ ∃ n, f (s.drop n) = true := by
  induction s with
  | nil =>
      simp only [likeSuffixes, List.drop_nil]
      exact ⟨fun h => ⟨0, h⟩, fun ⟨n, h⟩ => h⟩
  | cons c s ih =>
      simp only [likeSuffixes, Bool.or_eq_true, ih]
      constructor
      · rintro (h | ⟨n, h⟩)
        · exact ⟨0, h⟩
        · exact ⟨n + 1, h⟩
      · rintro ⟨n, h⟩
        cases n with
        | zero => exact Or.inl h
        | succ n => exact Or.inr ⟨n, h⟩

/-- A wildcard-free pattern followed by `%` matches exactly the lists it is
a prefix of. -/
theorem likeMatch_literal (qs : List Char)
    (hq : ∀ c ∈ qs, c ≠ '%' ∧ c ≠ '_') (s : List Char) :
    likeMatch (qs ++ ['%']) s = true ↔ qs <+: s := by
  induction qs generalizing s with
  | nil =>
      simp only [List.nil_append, List.nil_prefix, iff_true]
      have h1 : likeMatch ['%'] s = likeSuffixes (likeMatch []) s := by
        simp [likeMatch]
      rw [h1, likeSuffixes_iff]
      exact ⟨s.length, by simp [likeMatch]⟩
  | cons a qs ih =>
      have ha := hq a (List.mem_cons_self a qs)
      have hqs : ∀ c ∈ qs, c ≠ '%' ∧ c ≠ '_' :=
        fun c hc => hq c (List.mem_cons_of_mem a hc)
      cases s with
      | nil =>
          simp only [List.cons_append, likeMatch, if_neg ha.1]
          simp
      | cons c s2 =>
          simp only [List.cons_append, likeMatch, if_neg ha.1]
          have hu : (a == '_') = false := by
            simpa using ha.2
          simp only [hu, Bool.false_or, Bool.and_eq_true, beq_iff_eq,
            List.cons_prefix_cons]
          rw [List.append_eq, ih hqs]

/-- Being a prefix of some drop is being an infix. -/
theorem exists_drop_iff_infix (qs s : List Char) :
    (∃ n, qs <+: s.drop n) ↔ qs <:+: s := by
  constructor
  · rintro ⟨n, h⟩
    exact List.infix_iff_prefix_suffix.mpr ⟨s.drop n, h, List.drop_suffix n s⟩
  · rintro ⟨t, u, rfl⟩
    refine ⟨t.length, ?_⟩
    rw [List.append_assoc, List.drop_left]
    exact ⟨u, rfl⟩

/-- For a wildcard-free `qs`, the pattern `%qs%` matches exactly the lists
containing `qs`. -/
theorem likeMatch_contains (qs s : List Char)
    (hq : ∀ c ∈ qs, c ≠ '%' ∧ c ≠ '_') :
    likeMatch ('%' :: (qs ++ ['%'])) s = true ↔ qs <:+: s := by
  have h1 : likeMatch ('%' :: (qs ++ ['%'])) s
      = likeSuffixes (likeMatch (qs ++ ['%'])) s := by simp [likeMatch]
  rw [h1, likeSuffixes_iff]
  simp only [likeMatch_literal qs hq]
  exact exists_drop_iff_infix qs s

/-- Lowercasing fixes a character or lands in the lowercase letter range. -/
theorem toLower_eq_self_or_alpha (c : Char) :
    Char.toLower c = c ∨
      (97 ≤ (Char.toLower c).toNat ∧ (Char.toLower c).toNat ≤ 122) := by
  simp only [Char.toLower]
  split
  · right
    rename_i h
    obtain ⟨h1, h2⟩ := h
    generalize c.toNat = n at h1 h2 ⊢
    interval_cases n <;> decide
  · left
    rfl

/-- Lowercasing never introduces a `LIKE` wildcard character. -/
theorem toLower_ne_meta {c : Char} (h1 : c ≠ '%') (h2 : c ≠ '_') :
    Char.toLower c ≠ '%' ∧ Char.toLower c ≠ '_' := by
  rcases toLower_eq_self_or_alpha c with h | ⟨ha, hb⟩
  · rw [h]
    exact ⟨h1, h2⟩
  · constructor
    · intro he
      rw [he] at ha
      simp at ha
    · intro he
      rw [he] at ha
      simp at ha

/-- `ilike` against the pattern `f"%{q}%"`, with the folding pushed through
the pattern construction. -/
theorem ilike_pattern_eq (field q : String) :
    ilike field ("%" ++ q ++ "%")
      = likeMatch ('%' :: (q.data.map Char.toLower ++ ['%']))
          (field.data.map Char.toLower) := by
  unfold ilike
  have hd : ("%" ++ q ++ "%").data = '%' :: (q.data ++ ['%']) := by
    simp [String.data_append]
  rw [hd]
  have hper : Char.toLower '%' = '%' := by decide
  simp [hper]

/-- Peeling one `if`-guarded filter stage preserves membership. -/
theorem mem_of_if_filter {c : Prop} [Decidable c] {f : Property → Bool}
    {l : List Property} {p : Property}
    (h : p ∈ if c then l.filter f else l) : p ∈ l := by
  split at h
  · exact (List.mem_filter.mp h).1
  · exact h

/-- Peeling the `mode` stage preserves membership. -/
theorem mem_of_mode_stage {mode : String} {l : List Property} {p : Property}
    (h : p ∈ if mode = "rent" then l.filter (fun p => p.for_rent)
        else if mode = "sale" then l.filter (fun p => !p.for_rent) else l) :
    p ∈ l := by
  split at h
  · exact (List.mem_filter.mp h).1
  · split at h
    · exact (List.mem_filter.mp h).1
    · exact h

/-- A record returned by the full listing view with a non-empty `q`
satisfies the `q` filter predicate. -/
theorem properties_mem_qpred {s : Store} {q city mode : String} {p : Property}
    (hq : pyStrip q ≠ "") (hp : p ∈ properties s q city mode) :
    (ilike p.title ("%" ++ pyStrip q ++ "%")
      || ilike p.address ("%" ++ pyStrip q ++ "%")
      || ilike p.city ("%" ++ pyStrip q ++ "%")) = true := by
  simp only [properties] at hp
  replace hp := mem_of_mode_stage hp
  replace hp := mem_of_if_filter hp
  rw [if_pos hq] at hp
  exact (List.mem_filter.mp hp).2

/-- C5 (amended): for a search string that is non-empty after trimming and
contains no SQL `LIKE` wildcard character (`%` or `_`), every record
returned by the catalog search (the full listing view, or the home view
whose results are a subset of it) contains the trimmed string
case-insensitively as a substring of its title, address or city; hence every
record containing it in none of the three fields is excluded. -/
theorem search_requires_substring (s : Store) (q city mode : String)
    (p : Property)
    (hq : pyStrip q ≠ "")
    (hwild : ∀ c ∈ (pyStrip q).data, c ≠ '%' ∧ c ≠ '_')
    (hp : p ∈ properties s q city mode ∨ p ∈ home s q city mode) :
    containsCI p.title (pyStrip q) ∨ containsCI p.address (pyStrip q)
      ∨ containsCI p.city (pyStrip q) := by
  have hp2 : p ∈ properties s q city mode := by
    rcases hp with h | h
    · exact h
    · rw [(rfl : home s q city mode = (properties s q city mode).take 6)] at h
      exact List.mem_of_mem_take h
  have hpred := properties_mem_qpred hq hp2
  have hwild2 : ∀ c ∈ (pyStrip q).data.map Char.toLower, c ≠ '%' ∧ c ≠ '_' := by
    intro c hc
    obtain ⟨c0, hc0, rfl⟩ := List.mem_map.mp hc
    exact toLower_ne_meta (hwild c0 hc0).1 (hwild c0 hc0).2
  simp only [Bool.or_eq_true] at hpred
  rcases hpred with (h | h) | h
  · left
    rw [ilike_pattern_eq] at h
    exact (likeMatch_contains _ _ hwild2).mp h
  · right; left
    rw [ilike_pattern_eq] at h
    exact (likeMatch_contains _ _ hwild2).mp h
  · right; right
    rw [ilike_pattern_eq] at h
    exact (likeMatch_contains _ _ hwild2).mp h

/-- C5 counterexample: the search string `"%"` is non-empty after trimming,
the stored record is returned for it (the `%` is spliced into the `LIKE`
pattern and matches anything), yet `"%"` is not a substring of the record's
title, address or city. -/
theorem search_requires_substring_counterexample :
    pyStrip "%" ≠ ""
    ∧ storeC5.props.head? = some
        { id := 1, title := "Sunny Loft", address := "9 C St",
          city := "Austin", state := "TX", price := 900, for_rent := true,
          beds := 1, baths := 1, sqft := 400, description := "",
          created_at := 7 }
    ∧ (∀ p ∈ properties storeC5 "%" "" "all",
        ¬ containsCI p.title (pyStrip "%")
        ∧ ¬ containsCI p.address (pyStrip "%")
        ∧ ¬ containsCI p.city (pyStrip "%"))
    ∧ (properties storeC5 "%" "" "all").length = 1 := by decide

/-- Witness for the amended C5 at a concrete store and query. -/
theorem search_requires_substring_witness :
    containsCI "Sunny Loft" (pyStrip " loft ")
    ∨ containsCI "9 C St" (pyStrip " loft ")
    ∨ containsCI "Austin" (pyStrip " loft ") := by
  have h := search_requires_substring storeC5 " loft " "" "all"
    { id := 1, title := "Sunny Loft", address := "9 C St", city := "Austin",
      state := "TX", price := 900, for_rent := true, beds := 1, baths := 1,
      sqft := 400, description := "", created_at := 7 }
    (by decide) (by decide) (Or.inl (by decide))
  exact h

/-- Saving a file into a property's directory appends its name to that
directory's listing. -/
theorem dirListing_storeAfterSave (s : Store) (pid : Nat) (fn : String) :
    dirListing (storeAfterSave s pid fn) pid = dirListing s pid ++ [fn] := by
  simp [dirListing, storeAfterSave, List.filterMap_append]

/-- One step of `save_images` on a non-empty, allowed filename. -/
theorem save_images_cons_stored (secure : String → String) (f : UploadFile)
    (rest : List UploadFile) (pid : Nat) (s : Store)
    (hne : ¬ f.filename = "") (hal : allowed_file f.filename = true) :
    save_images secure (f :: rest) pid s =
      ((uniquify (dirListing s pid) (secure f.filename)) ::
          (save_images secure rest pid (storeAfterSave s pid
            (uniquify (dirListing s pid) (secure f.filename)))).1,
        (save_images secure rest pid (storeAfterSave s pid
          (uniquify (dirListing s pid) (secure f.filename)))).2) := by
  conv_lhs => rw [save_images]
  rw [if_neg hne, if_pos hal]

/-- Uploading two files with the same sanitized name yields two distinct
stored filenames and exactly two new `Image` rows. -/
theorem save_images_two_same (s : Store) (pid : Nat) (f1 f2 : UploadFile)
    (secure : String → String)
    (h1 : ¬ f1.filename = "") (h2 : ¬ f2.filename = "")
    (ha1 : allowed_file f1.filename = true)
    (ha2 : allowed_file f2.filename = true)
    (hsec : secure f1.filename = secure f2.filename) :
    ∃ n1 n2, (save_images secure [f1, f2] pid s).1 = [n1, n2] ∧ n1 ≠ n2
      ∧ (save_images secure [f1, f2] pid s).2.images.length
          = s.images.length + 2 := by
  have hstep1 := save_images_cons_stored secure f1 [f2] pid s h1 ha1
  have hstep2 := save_images_cons_stored secure f2 [] pid
    (storeAfterSave s pid (uniquify (dirListing s pid) (secure f1.filename)))
    h2 ha2
  have hnil : ∀ s0 : Store, save_images secure [] pid s0 = ([], s0) :=
    fun _ => rfl
  rw [hnil] at hstep2
  rw [hstep2] at hstep1
  have hfresh : uniquify (dirListing (storeAfterSave s pid
        (uniquify (dirListing s pid) (secure f1.filename))) pid)
        (secure f2.filename)
      ∉ dirListing (storeAfterSave s pid
        (uniquify (dirListing s pid) (secure f1.filename))) pid :=
    uniquify_fresh _ _
  have hne2 : uniquify (dirListing s pid) (secure f1.filename)
      ≠ uniquify (dirListing (storeAfterSave s pid
          (uniquify (dirListing s pid) (secure f1.filename))) pid)
          (secure f2.filename) := by
    intro he
    apply hfresh
    rw [← he, dirListing_storeAfterSave]
    exact List.mem_append_right _ (List.mem_singleton.mpr rfl)
  refine ⟨_, _, ?_, hne2, ?_⟩
  · rw [hstep1]
  · rw [hstep1]
    simp [storeAfterSave]

/-- C6: the unique-name search of image ingestion returns a name absent
from the property's directory, and that name is either the sanitized name
itself or a deterministic numeric-suffix variant `base_k.ext` (`k ≥ 1`);
consequently, uploading two files with the same non-empty, allowed,
sanitized name to the same property stores two distinct filenames and
appends exactly two `Image` rows. -/
theorem ingest_collision_suffixes (dir : List String) (name : String)
    (s : Store) (pid : Nat) (f1 f2 : UploadFile) (secure : String → String)
    (h1 : ¬ f1.filename = "") (h2 : ¬ f2.filename = "")
    (ha1 : allowed_file f1.filename = true)
    (ha2 : allowed_file f2.filename = true)
    (hsec : secure f1.filename = secure f2.filename) :
    (uniquify dir name ∉ dir)
    ∧ (uniquify dir name = name ∨
        ∃ k, 1 ≤ k ∧ uniquify dir name
          = suffixName (splitext name).1 (splitext name).2 k)
    ∧ (∃ n1 n2, (save_images secure [f1, f2] pid s).1 = [n1, n2] ∧ n1 ≠ n2
        ∧ (save_images secure [f1, f2] pid s).2.images.length
            = s.images.length + 2) :=
  ⟨uniquify_fresh dir name, uniquify_shape dir name,
    save_images_two_same s pid f1 f2 secure h1 h2 ha1 ha2 hsec⟩

/-- Witness for C6 at a concrete directory and two same-named uploads. -/
theorem ingest_collision_suffixes_witness :
    (uniquify ["a.png"] "a.png" ∉ ["a.png"])
    ∧ (uniquify ["a.png"] "a.png" = "a.png" ∨
        ∃ k, 1 ≤ k ∧ uniquify ["a.png"] "a.png"
          = suffixName (splitext "a.png").1 (splitext "a.png").2 k)
    ∧ (∃ n1 n2,
        (save_images id [⟨"a.png"⟩, ⟨"a.png"⟩] 7 storeC1).1 = [n1, n2]
        ∧ n1 ≠ n2
        ∧ (save_images id [⟨"a.png"⟩, ⟨"a.png"⟩] 7 storeC1).2.images.length
            = storeC1.images.length + 2) :=
  ingest_collision_suffixes ["a.png"] "a.png" storeC1 7 ⟨"a.png"⟩ ⟨"a.png"⟩ id
    (by decide) (by decide) (by decide) (by decide) rfl

/-- `save_images` never touches the `Property` table. -/
theorem save_images_props_unchanged (secure : String → String)
    (files : List UploadFile) (pid : Nat) :
    ∀ s : Store, (save_images secure files pid s).2.props = s.props := by
  induction files with
  | nil => intro s; rfl
  | cons f rest ih =>
      intro s
      simp only [save_images]
      split
      · exact ih s
      · split
        · simp only
          rw [ih (storeAfterSave s pid
            (uniquify (dirListing s pid) (secure f.filename)))]
          rfl
        · exact ih s

/-- `orDefaultInt` with a non-zero default never yields zero. -/
theorem orDefaultInt_ne_zero (x : Option Int) {d : Int} (hd : d ≠ 0) :
    orDefaultInt x d ≠ 0 := by
  cases x with
  | none => simpa [orDefaultInt] using hd
  | some v =>
      simp only [orDefaultInt]
      split
      · exact hd
      · assumption

/-- `orDefaultRat` with a non-zero default never yields zero. -/
theorem orDefaultRat_ne_zero (x : Option Rat) {d : Rat} (hd : d ≠ 0) :
    orDefaultRat x d ≠ 0 := by
  cases x with
  | none => simpa [orDefaultRat] using hd
  | some v =>
      simp only [orDefaultRat]
      split
      · exact hd
      · assumption

/-- C9: on admin create and edit alike, a `beds`, `baths` or `sqft` value
that is absent (`None`) or zero, and an absent or empty `description`, are
replaced by the defaults 1, 1.0, 500 and the empty string; consequently the
property written by `admin_new` (appended to the table) and the one written
by `admin_edit` (overwritten in place) never carry `beds`, `baths` or
`sqft` equal to zero. -/
theorem admin_form_defaults (form : PropertyForm) (pid now : Nat)
    (p0 : Property) (s : Store) (pid2 : Nat) (secure : String → String) :
    ((form.beds = none ∨ form.beds = some 0) →
      (propertyFromForm form pid now).beds = 1
        ∧ (updateProperty p0 form).beds = 1)
    ∧ ((form.baths = none ∨ form.baths = some 0) →
      (propertyFromForm form pid now).baths = 1
        ∧ (updateProperty p0 form).baths = 1)
    ∧ ((form.sqft = none ∨ form.sqft = some 0) →
      (propertyFromForm form pid now).sqft = 500
        ∧ (updateProperty p0 form).sqft = 500)
    ∧ ((form.description = none ∨ form.description = some "") →
      (propertyFromForm form pid now).description = ""
        ∧ (updateProperty p0 form).description = "")
    ∧ (propertyFromForm form pid now).beds ≠ 0
    ∧ (propertyFromForm form pid now).baths ≠ 0
    ∧ (propertyFromForm form pid now).sqft ≠ 0
    ∧ (updateProperty p0 form).beds ≠ 0
    ∧ (updateProperty p0 form).baths ≠ 0
    ∧ (updateProperty p0 form).sqft ≠ 0
    ∧ (admin_new s now form secure).props
        = s.props ++ [propertyFromForm form (nextId (s.props.map
            (fun p => p.id))) now]
    ∧ (∀ s2, admin_edit s pid2 form secure = .ok s2 →
        s2.props = s.props.map (fun p =>
          if p.id = pid2 then updateProperty p form else p)) := by
  refine ⟨?_, ?_, ?_, ?_, ?_, ?_, ?_, ?_, ?_, ?_, ?_, ?_⟩
  · rintro (h | h) <;>
      simp [propertyFromForm, updateProperty, orDefaultInt, h]
  · rintro (h | h) <;>
      simp [propertyFromForm, updateProperty, orDefaultRat, h]
  · rintro (h | h) <;>
      simp [propertyFromForm, updateProperty, orDefaultInt, h]
  · rintro (h | h) <;>
      simp [propertyFromForm, updateProperty, orDefaultStr, h]
  · exact orDefaultInt_ne_zero _ (by norm_num)
  · exact orDefaultRat_ne_zero _ (by norm_num)
  · exact orDefaultInt_ne_zero _ (by norm_num)
  · exact orDefaultInt_ne_zero _ (by norm_num)
  · exact orDefaultRat_ne_zero _ (by norm_num)
  · exact orDefaultInt_ne_zero _ (by norm_num)
  · simp only [admin_new]
    rw [save_images_props_unchanged]
  · intro s2 h2
    unfold admin_edit at h2
    cases hf : s.props.find? (fun p => p.id == pid2) with
    | none => rw [hf] at h2; cases h2
    | some q =>
        rw [hf] at h2
        simp only at h2
        injection h2 with h2
        rw [← h2, save_images_props_unchanged]

/-- Witness for C9 at a concrete form, store and edit target. -/
theorem admin_form_defaults_witness :
    ((propertyFromForm formC9 9 0).beds = 1
      ∧ (updateProperty (sampleProperty 1 0) formC9).beds = 1)
    ∧ ((propertyFromForm formC9 9 0).baths = 1
      ∧ (updateProperty (sampleProperty 1 0) formC9).baths = 1)
    ∧ ((propertyFromForm formC9 9 0).sqft = 500
      ∧ (updateProperty (sampleProperty 1 0) formC9).sqft = 500)
    ∧ ((propertyFromForm formC9 9 0).description = ""
      ∧ (updateProperty (sampleProperty 1 0) formC9).description = "")
    ∧ (propertyFromForm formC9 9 0).beds ≠ 0
    ∧ (admin_new storeC1 0 formC9 id).props
        = storeC1.props ++ [propertyFromForm formC9 (nextId
            (storeC1.props.map (fun p => p.id))) 0]
    ∧ storeC9edit.props = storeC1.props.map (fun p =>
        if p.id = 1 then updateProperty p formC9 else p) := by
  have h := admin_form_defaults formC9 9 0 (sampleProperty 1 0) storeC1 1 id
  exact ⟨h.1 (Or.inl rfl), h.2.1 (Or.inr rfl), h.2.2.1 (Or.inr rfl),
    h.2.2.2.1 (Or.inl rfl), h.2.2.2.2.1, h.2.2.2.2.2.2.2.2.2.2.1,
    h.2.2.2.2.2.2.2.2.2.2.2 storeC9edit rfl⟩

end PrimeStay
